import Mathlib

/-!
# A verification development for `oop.cpp`

A shallow embedding of the classes of `src/oop.cpp` (`Salary`, `Person`,
`Employee`, `Manager`, `Consultant`, `Lead`, `Intern`), of the friend function
`promote` and of the driver `main`, followed by theorems about them.

Conventions of the embedding:

* `double` is `F64`, a model of IEEE 754 binary64 values with
  round-to-nearest-even addition;
* `int` is `Int`; the only `int` arithmetic of the program, `++population` and
  `--population`, goes through `wrapInt` (32-bit two's complement);
* the process-wide state (the static `Person::population` and the text written
  to `cout`) is the record `World`, passed explicitly;
* objects that are reached through references or pointers live in a `Store`
  and are named by their address.
-/

/-! ## `double` -/

/-- An IEEE 754 binary64 value. `finite s m e` stands for `(-1)^s * m * 2^e`
(zero, with its sign, is `finite s 0 (-1074)`); the values a `double` can hold
are those with `F64.valid`. All NaNs are the one value `nan`: payloads are
not told apart. -/
inductive F64 where
  | finite (sign : Bool) (m : Nat) (e : Int)
  | inf (sign : Bool)
  | nan
  deriving DecidableEq

namespace F64

/-- The finite values a binary64 holds: a 53-bit significand with exponent in
`[-1074, 971]`, normalised (top bit set) unless the exponent is the least one. -/
def valid : F64 → Bool
  | finite _ m e =>
      decide (m < 2 ^ 53) && decide (-1074 ≤ e) && decide (e ≤ 971) &&
        (decide (2 ^ 52 ≤ m) || decide (e = -1074))
  | inf _ => true
  | nan => true

/-- Number of binary digits of `n`, by halving at most `fuel` times. -/
def bitLengthAux : Nat → Nat → Nat
  | 0, _ => 0
  | fuel + 1, n => if n = 0 then 0 else bitLengthAux fuel (n / 2) + 1

/-- Number of binary digits of `n` (`0` for `0`). -/
def bitLength (n : Nat) : Nat := bitLengthAux n n

/-- The significand of the exact value `M * 2^e` at the exponent `t`: `M`
shifted to that exponent, the bits dropped (if `e < t`) rounded to nearest,
ties to even. -/
def roundedSignificand (M : Nat) (e t : Int) : Nat :=
  let k : Nat := (t - e).toNat
  let q : Nat := (M * 2 ^ (e - t).toNat) / 2 ^ k
  let r : Nat := M % 2 ^ k
  if 2 ^ k < 2 * r ∨ (2 ^ k = 2 * r ∧ q % 2 = 1) then q + 1 else q

/-- Round the exact value `(-1)^sign * M * 2^e` (with `M ≠ 0`) to binary64,
to nearest, ties to even, overflowing to infinity: the exponent `t` is the one
that leaves 53 significant bits, but not below the least exponent `-1074`. -/
def roundNearestEven (sign : Bool) (M : Nat) (e : Int) : F64 :=
  let t : Int := max (e + bitLength M - 53) (-1074)
  let q : Nat := roundedSignificand M e t
  let m2 : Nat := if q = 2 ^ 53 then 2 ^ 52 else q
  let e2 : Int := if q = 2 ^ 53 then t + 1 else t
  if 971 < e2 then inf sign else finite sign m2 e2

/-- The integer `(-1)^sign * m * 2^k`. -/
def signedScaled (sign : Bool) (m : Nat) (k : Nat) : Int :=
  if sign then -((m * 2 ^ k : Nat) : Int) else ((m * 2 ^ k : Nat) : Int)

/-- Binary64 addition, the `+` of `double`. -/
def add : F64 → F64 → F64
  | nan, _ => nan
  | _, nan => nan
  | inf s1, inf s2 => if s1 = s2 then inf s1 else nan
  | inf s1, finite _ _ _ => inf s1
  | finite _ _ _, inf s2 => inf s2
  | finite s1 m1 e1, finite s2 m2 e2 =>
    let e : Int := min e1 e2
    let v : Int := signedScaled s1 m1 (e1 - e).toNat + signedScaled s2 m2 (e2 - e).toNat
    if v = 0 then finite (s1 && s2) 0 (-1074)
    else roundNearestEven (decide (v < 0)) v.natAbs e

instance : Add F64 := ⟨add⟩

/-- Conversion of an integer to `double` (exact below `2^53` in magnitude). -/
def ofInt (i : Int) : F64 :=
  if i = 0 then finite false 0 (-1074) else roundNearestEven (decide (i < 0)) i.natAbs 0

end F64

/-! ## `int` -/

/-- Reduction of an integer to the 32-bit two's-complement range of `int`.
Signed overflow is undefined in C++; the embedding takes the wrap-around of
the compiled increment. -/
def wrapInt (x : Int) : Int := (x + 2 ^ 31) % 2 ^ 32 - 2 ^ 31

/-! ## Process-wide state -/

/-- The static member `Person::population` and the text written to `cout`. -/
structure World where
  population : Int
  cout : String
  deriving DecidableEq

namespace World

/-- The statement `cout << s`. -/
def write (w : World) (s : String) : World := { w with cout := w.cout ++ s }

/-- The statement `++population`. -/
def incPopulation (w : World) : World := { w with population := wrapInt (w.population + 1) }

/-- The statement `--population`. -/
def decPopulation (w : World) : World := { w with population := wrapInt (w.population - 1) }

end World

/-! ## `Salary` -/

/-- The class `Salary`. -/
structure Salary where
  amount : F64
  deriving DecidableEq

namespace Salary

/-- The constructor `Salary(double a)`. -/
def ctor (a : F64) : Salary := { amount := a }

/-- The constructor `Salary()`, its argument defaulted to `0.0`. -/
def ctorDefault : Salary := ctor (F64.ofInt 0)

/-- The method `get`. -/
def get (self : Salary) : F64 := self.amount

/-- The `operator+` of `Salary`. -/
def add (self other : Salary) : Salary := ctor (self.amount + other.amount)

instance : Add Salary := ⟨add⟩

/-- The `operator<<` of `Salary`; `fmt` is the stream's rendering of a `double`. -/
def print (fmt : F64 → String) (s : Salary) : String := fmt s.amount

end Salary

/-! ## `Person` -/

/-- The data members of the class `Person`. -/
structure Person where
  age : Int
  name : String
  deriving DecidableEq

namespace Person

/-- The default constructor `Person()`. -/
def ctorDefault (w : World) : Person × World :=
  let self : Person := { age := 0, name := "Unknown" }
  let w := w.incPopulation
  (self, w.write ("[Person] default ctor called for " ++ self.name ++ "\n"))

/-- The constructor `Person(const string& nm, int a)`. -/
def ctorParam (nm : String) (a : Int) (w : World) : Person × World :=
  let self : Person := { age := a, name := nm }
  let w := w.incPopulation
  (self, w.write ("[Person] parameterized ctor called for " ++ self.name ++ "\n"))

/-- The copy constructor `Person(const Person& other)`. -/
def ctorCopy (other : Person) (w : World) : Person × World :=
  let self : Person := { age := other.age, name := other.name }
  let w := w.incPopulation
  (self, w.write ("[Person] copy ctor called for " ++ self.name ++ "\n"))

/-- The move constructor `Person(Person&& other)`: the new object, the source
as it is left, and the world. The moved-from `name` is left empty (the standard
only says it is valid; the usual libraries leave it empty). -/
def ctorMove (other : Person) (w : World) : Person × Person × World :=
  let self : Person := { age := other.age, name := other.name }
  let other : Person := { other with name := "" }
  let w := w.incPopulation
  let other : Person := { other with age := 0 }
  (self, other, w.write "[Person] move ctor called\n")

/-- The destructor `~Person()`. -/
def dtor (self : Person) (w : World) : World :=
  let w := w.decPopulation
  w.write ("[Person] dtor called for " ++ self.name ++ "\n")

/-- The method `getAge`. -/
def getAge (self : Person) : Int := self.age

/-- The body of `setAge` on the state of `*this`. -/
def setAge (self : Person) (a : Int) : Person := { self with age := a }

/-- The method `introduce()`. -/
def introduce (self : Person) (w : World) : World :=
  w.write ("Hi, I'm " ++ self.name ++ ".\n")

/-- The method `introduce(const string& mood)`. -/
def introduceMood (self : Person) (mood : String) (w : World) : World :=
  w.write ("Hi, I'm " ++ self.name ++ ". I'm feeling " ++ mood ++ ".\n")

/-- The method `getName`. -/
def getName (self : Person) : String := self.name

/-- The text `Person::show` writes. -/
def showText (self : Person) : String :=
  "[Person::show] Name: " ++ self.name ++ ", Age: " ++ toString self.age ++ "\n"

/-- The method `Person::show`, not overridden. -/
def «show» (self : Person) (w : World) : World := w.write self.showText

end Person

/-! ## `Employee` and `promote` -/

/-- The class `Employee`: its `Person` base and its own data members (the base
`Payable` has none). -/
structure Employee extends Person where
  employeeId : Int
  salary : Salary
  cache : String
  deriving DecidableEq

namespace Employee

/-- The default constructor `Employee()`. -/
def ctorDefault (w : World) : Employee × World :=
  let (base, w) := Person.ctorDefault w
  let self : Employee :=
    { toPerson := base, employeeId := 0, salary := Salary.ctor (F64.ofInt 0), cache := "" }
  (self, w.write "[Employee] default ctor\n")

/-- The constructor `Employee(const string& nm, int a, int id, double sal)`. -/
def ctorParam (nm : String) (a : Int) (id : Int) (sal : F64) (w : World) : Employee × World :=
  let (base, w) := Person.ctorParam nm a w
  let self : Employee :=
    { toPerson := base, employeeId := id, salary := Salary.ctor sal, cache := "" }
  (self, w.write ("[Employee] parameterized ctor for " ++ nm ++ "\n"))

/-- The copy constructor `Employee(const Employee& other)`; `cache` is not in
its initialiser list and starts empty. -/
def ctorCopy (other : Employee) (w : World) : Employee × World :=
  let (base, w) := Person.ctorCopy other.toPerson w
  let self : Employee :=
    { toPerson := base, employeeId := other.employeeId, salary := other.salary, cache := "" }
  (self, w.write "[Employee] copy ctor\n")

/-- The destructor `~Employee()`: its body, then the base `~Person()`. -/
def dtor (self : Employee) (w : World) : World :=
  let w := w.write ("[Employee] dtor for " ++ self.toPerson.getName ++ "\n")
  self.toPerson.dtor w

/-- The method `getPay`, the override of `Payable::getPay`. -/
def getPay (self : Employee) : F64 := self.salary.get

/-- The text `Employee::show` writes. -/
def showText (fmt : F64 → String) (self : Employee) : String :=
  "[Employee::show] " ++ self.toPerson.getName ++ " (ID: " ++ toString self.employeeId ++
    "), Salary: " ++ self.salary.print fmt ++ "\n"

/-- The method `Employee::show`. -/
def «show» (fmt : F64 → String) (self : Employee) (w : World) : World :=
  w.write (self.showText fmt)

/-- The method `getSalary`. -/
def getSalary (self : Employee) : Salary := self.salary

/-- The method `setSalary`. -/
def setSalary (self : Employee) (s : Salary) : Employee := { self with salary := s }

end Employee

/-- The friend function `promote` on the state of the employee `e` refers to. -/
def promote (fmt : F64 → String) (e : Employee) (raise : F64) (w : World) : Employee × World :=
  let w := w.write ("[friend promote] Promoting " ++ e.toPerson.getName ++ " by " ++
    fmt raise ++ "\n")
  ({ e with salary := e.salary + Salary.ctor raise }, w)

/-! ## `Manager`, `Consultant`, `Lead`, `Intern` -/

/-- The class `Manager`. -/
structure Manager extends Employee where
  teamSize : Int
  deriving DecidableEq

namespace Manager

/-- The default constructor `Manager()`. -/
def ctorDefault (w : World) : Manager × World :=
  let (base, w) := Employee.ctorDefault w
  let self : Manager := { toEmployee := base, teamSize := 0 }
  (self, w.write "[Manager] default ctor\n")

/-- The constructor `Manager(const string& nm, int a, int id, double sal, int team)`. -/
def ctorParam (nm : String) (a : Int) (id : Int) (sal : F64) (team : Int) (w : World) :
    Manager × World :=
  let (base, w) := Employee.ctorParam nm a id sal w
  let self : Manager := { toEmployee := base, teamSize := team }
  (self, w.write ("[Manager] parameterized ctor for " ++ nm ++ "\n"))

/-- The implicitly declared copy constructor `Manager(const Manager&)`: the
base is copied by the copy constructor of `Employee`, then the member
`teamSize`; it has no body of its own. -/
def ctorCopy (other : Manager) (w : World) : Manager × World :=
  let (base, w) := Employee.ctorCopy other.toEmployee w
  let self : Manager := { toEmployee := base, teamSize := other.teamSize }
  (self, w)

/-- The destructor `~Manager()`: its body, then the base `~Employee()`. -/
def dtor (self : Manager) (w : World) : World :=
  let w := w.write "[Manager] dtor\n"
  self.toEmployee.dtor w

/-- The text `Manager::show` writes. -/
def showText (self : Manager) : String :=
  "[Manager::show] " ++ self.toPerson.getName ++ " manages team of " ++
    toString self.teamSize ++ "\n"

/-- The method `Manager::show`. -/
def «show» (self : Manager) (w : World) : World := w.write self.showText

end Manager

/-- The class `Consultant`. -/
structure Consultant where
  consultancyFirm : String
  deriving DecidableEq

namespace Consultant

/-- The constructor `Consultant(const string& firm)`. -/
def ctor (firm : String) (w : World) : Consultant × World :=
  let self : Consultant := { consultancyFirm := firm }
  (self, w.write ("[Consultant] ctor for " ++ self.consultancyFirm ++ "\n"))

/-- The constructor `Consultant()`, its argument defaulted to `"Independent"`. -/
def ctorDefault (w : World) : Consultant × World := ctor "Independent" w

/-- The implicitly declared copy constructor `Consultant(const Consultant&)`:
the member `consultancyFirm` is copied; it has no body of its own. -/
def ctorCopy (other : Consultant) (w : World) : Consultant × World :=
  let self : Consultant := { consultancyFirm := other.consultancyFirm }
  (self, w)

/-- The destructor `~Consultant()`. -/
def dtor (_self : Consultant) (w : World) : World := w.write "[Consultant] dtor\n"

/-- The method `showConsultancy`. -/
def showConsultancy (self : Consultant) (w : World) : World :=
  w.write ("Consultancy: " ++ self.consultancyFirm ++ "\n")

end Consultant

/-- The class `Lead`, with its two bases `Manager` and `Consultant`. -/
structure Lead extends Manager, Consultant
  deriving DecidableEq

namespace Lead

/-- The constructor `Lead(nm, a, id, sal, team, firm)`: the base `Manager`,
then the base `Consultant`, then its body. -/
def ctor (nm : String) (a : Int) (id : Int) (sal : F64) (team : Int) (firm : String)
    (w : World) : Lead × World :=
  let (mgr, w) := Manager.ctorParam nm a id sal team w
  let (con, w) := Consultant.ctor firm w
  let self : Lead := { toManager := mgr, toConsultant := con }
  (self, w.write ("[Lead] ctor for " ++ self.toPerson.getName ++ "\n"))

/-- The implicitly declared copy constructor `Lead(const Lead&)`: the base
`Manager` is copied, then the base `Consultant`; it has no body of its own. -/
def ctorCopy (other : Lead) (w : World) : Lead × World :=
  let (mgr, w) := Manager.ctorCopy other.toManager w
  let (con, w) := Consultant.ctorCopy other.toConsultant w
  let self : Lead := { toManager := mgr, toConsultant := con }
  (self, w)

/-- The destructor `~Lead()`: its body, then `~Consultant()`, then `~Manager()`. -/
def dtor (self : Lead) (w : World) : World :=
  let w := w.write "[Lead] dtor\n"
  let w := self.toConsultant.dtor w
  self.toManager.dtor w

/-- The text `Lead::show` writes. -/
def showText (self : Lead) : String :=
  "[Lead::show] " ++ self.toPerson.getName ++ " is a lead at " ++ self.consultancyFirm ++ "\n"

/-- The method `Lead::show`. -/
def «show» (self : Lead) (w : World) : World := w.write self.showText

end Lead

/-- The class `Intern`. -/
structure Intern extends Employee
  deriving DecidableEq

namespace Intern

/-- The constructor `Intern(const string& nm, int a, int id, double sal)`. -/
def ctor (nm : String) (a : Int) (id : Int) (sal : F64) (w : World) : Intern × World :=
  let (base, w) := Employee.ctorParam nm a id sal w
  let self : Intern := { toEmployee := base }
  (self, w.write "[Intern] ctor\n")

/-- The implicitly declared copy constructor `Intern(const Intern&)`: the base
is copied by the copy constructor of `Employee`; it has no body of its own. -/
def ctorCopy (other : Intern) (w : World) : Intern × World :=
  let (base, w) := Employee.ctorCopy other.toEmployee w
  let self : Intern := { toEmployee := base }
  (self, w)

/-- The destructor `~Intern()`: its body, then the base `~Employee()`. -/
def dtor (self : Intern) (w : World) : World :=
  let w := w.write "[Intern] dtor\n"
  self.toEmployee.dtor w

/-- The text `Intern::show` writes. -/
def showText (self : Intern) : String :=
  "[Intern::show] " ++ self.toPerson.getName ++ " is an intern.\n"

/-- The method `Intern::show`. -/
def «show» (self : Intern) (w : World) : World := w.write self.showText

end Intern

/-! ## Objects, references and virtual dispatch -/

/-- A complete object of the `Person` hierarchy, tagged with its actual
(most derived) class. -/
inductive Object where
  | person (p : Person)
  | employee (e : Employee)
  | manager (m : Manager)
  | lead (l : Lead)
  | intern (i : Intern)
  deriving DecidableEq

namespace Object

/-- The `Person` base subobject, what a `Person&` bound to the object sees. -/
def toPerson : Object → Person
  | person p => p
  | employee e => e.toPerson
  | manager m => m.toPerson
  | lead l => l.toPerson
  | intern i => i.toPerson

/-- The object with its `Person` base subobject replaced. -/
def setPerson (p : Person) : Object → Object
  | person _ => person p
  | employee e => employee { e with toPerson := p }
  | manager m => manager { m with toPerson := p }
  | lead l => lead { l with toPerson := p }
  | intern i => intern { i with toPerson := p }

/-- The `Employee` subobject, what an `Employee&` or a `Payable&` bound to the
object sees; a plain `Person` has none. -/
def toEmployee : Object → Option Employee
  | person _ => none
  | employee e => some e
  | manager m => some m.toEmployee
  | lead l => some l.toEmployee
  | intern i => some i.toEmployee

/-- The object with its `Employee` subobject replaced. -/
def setEmployee (e : Employee) : Object → Object
  | person p => person p
  | employee _ => employee e
  | manager m => manager { m with toEmployee := e }
  | lead l => lead { l with toEmployee := e }
  | intern i => intern { i with toEmployee := e }

/-- The virtual call `show()`: the final overrider of the actual class. -/
def vshow (fmt : F64 → String) : Object → World → World
  | person p => p.show
  | employee e => e.show fmt
  | manager m => m.show
  | lead l => l.show
  | intern i => i.show

/-- The virtual call `getPay()` through `Payable`: `Employee::getPay` is the
final overrider in every class derived from `Employee`. -/
def vgetPay (o : Object) : Option F64 := o.toEmployee.map Employee.getPay

/-- The destructor of the actual class. -/
def dtor : Object → World → World
  | person p => p.dtor
  | employee e => e.dtor
  | manager m => m.dtor
  | lead l => l.dtor
  | intern i => i.dtor

end Object

/-- The address of an object. -/
abbrev Addr := Nat

/-- The objects alive, by address. -/
abbrev Store := List Object

/-! Calls made through a reference or a pointer: the callee is named by its
address; the result is `none` when nothing of the right class lives there. -/

namespace Ref

/-- The call `p.getAge()` through a `Person&`. -/
def getAge (st : Store) (this : Addr) : Option Int :=
  st[this]?.map fun o => o.toPerson.getAge

/-- The call `p.getName()` through a `Person&`. -/
def getName (st : Store) (this : Addr) : Option String :=
  st[this]?.map fun o => o.toPerson.getName

/-- The call `p.setAge(a)` through a `Person&`: the store after it and the
reference it returns, `*this`. -/
def setAge (st : Store) (this : Addr) (a : Int) : Option (Store × Addr) :=
  match st[this]? with
  | some o => some (st.set this (o.setPerson (o.toPerson.setAge a)), this)
  | none => none

/-- The call `promote(e, raise)` with `e` an `Employee&`. -/
def promoteAt (fmt : F64 → String) (st : Store) (e : Addr) (raise : F64) (w : World) :
    Option (Store × World) :=
  match st[e]? with
  | some o =>
    match o.toEmployee with
    | some emp =>
      let (emp, w) := promote fmt emp raise w
      some (st.set e (o.setEmployee emp), w)
    | none => none
  | none => none

/-- The call `e.setSalary(s)` through an `Employee&`. -/
def setSalary (st : Store) (e : Addr) (s : Salary) : Option Store :=
  match st[e]? with
  | some o =>
    match o.toEmployee with
    | some emp => some (st.set e (o.setEmployee (emp.setSalary s)))
    | none => none
  | none => none

/-- The virtual call `ptr->show()` through a `Person*` or `Person&`. -/
def «show» (fmt : F64 → String) (st : Store) (this : Addr) (w : World) : Option World :=
  st[this]?.map fun o => o.vshow fmt w

/-- The virtual call `ptr->getPay()` through a `Payable*` or `Payable&`. -/
def getPay (st : Store) (this : Addr) : Option F64 :=
  st[this]?.bind Object.vgetPay

end Ref

/-! ## The driver `main` -/

/-- The state at program start: `int Person::population = 0`, nothing written. -/
def World.initial : World := { population := 0, cout := "" }

/-- A new local object: the store with it and its address. -/
def Store.alloc (st : Store) (o : Object) : Store × Addr := (st ++ [o], st.length)

/-- The local variables of `main` as they stand at `return 0`, and the world. -/
structure Frame where
  st : Store
  p1 : Addr
  s1 : Salary
  s2 : Salary
  s3 : Salary
  e1 : Addr
  ptr : Addr
  m : Addr
  lead : Addr
  it : Addr
  pays : List Addr
  w : World
  deriving DecidableEq

namespace Driver

/-- The statements of `main` from its first line to the `Salary` demonstration. -/
def mainPersonSalary (fmt : F64 → String) (w : World) :
    Option (Store × Addr × Salary × Salary × Salary × World) := do
  let st : Store := []
  let w := w.write "----- OOP Concepts Demo Start -----\n\n"
  -- Person p1("Alice", 30);
  let (p1obj, w) := Person.ctorParam "Alice" 30 w
  let (st, p1) := Store.alloc st (Object.person p1obj)
  let w := (← st[p1]?).toPerson.introduce w
  let w := (← st[p1]?).toPerson.introduceMood "happy" w
  -- p1.setAge(31).setAge(32);
  let (st, r) ← Ref.setAge st p1 31
  let (st, _) ← Ref.setAge st r 32
  let w := w.write ((← Ref.getName st p1) ++ " is " ++ toString (← Ref.getAge st p1) ++
    " years old.\n\n")
  -- Salary s1(5000), s2(1500); Salary s3 = s1 + s2;
  let s1 := Salary.ctor (F64.ofInt 5000)
  let s2 := Salary.ctor (F64.ofInt 1500)
  let s3 := s1 + s2
  let w := w.write ("Combined Salary: " ++ s3.print fmt ++ "\n")
  pure (st, p1, s1, s2, s3, w)

/-- The statements of `main` on the employee `e1`. -/
def mainEmployee (fmt : F64 → String) (st : Store) (w : World) :
    Option (Store × Addr × Addr × World) := do
  -- Employee e1("Bob", 28, 1001, 7000.0);
  let (e1obj, w) := Employee.ctorParam "Bob" 28 1001 (F64.ofInt 7000) w
  let (st, e1) := Store.alloc st (Object.employee e1obj)
  let w := w.write ("Employee pay: " ++ fmt (← Ref.getPay st e1) ++ "\n")
  let w ← Ref.show fmt st e1 w
  -- promote(e1, 500.0);
  let (st, w) ← Ref.promoteAt fmt st e1 (F64.ofInt 500) w
  let w := w.write ("After promotion, pay: " ++ fmt (← Ref.getPay st e1) ++ "\n")
  -- Person* ptr = &e1; ptr->show();
  let ptr := e1
  let w ← Ref.show fmt st ptr w
  pure (st, e1, ptr, w)

/-- The statements of `main` on the manager `m`, on `lead` and on the intern `it`. -/
def mainInheritance (fmt : F64 → String) (st : Store) (w : World) :
    Option (Store × Addr × Addr × Addr × World) := do
  -- Manager m("Carol", 35, 2001, 15000.0, 5);
  let (mobj, w) := Manager.ctorParam "Carol" 35 2001 (F64.ofInt 15000) 5 w
  let (st, m) := Store.alloc st (Object.manager mobj)
  let w ← Ref.show fmt st m w
  -- Lead lead("Dave", 40, 3001, 20000.0, 10, "TopConsult");
  let (leadobj, w) := Lead.ctor "Dave" 40 3001 (F64.ofInt 20000) 10 "TopConsult" w
  let (st, lead) := Store.alloc st (Object.lead leadobj)
  let w ← Ref.show fmt st lead w
  let w ← match st[lead]? with
    | some (Object.lead l) => some (l.toConsultant.showConsultancy w)
    | _ => none
  -- Intern it("Eve", 22, 4001, 1000.0);
  let (itobj, w) := Intern.ctor "Eve" 22 4001 (F64.ofInt 1000) w
  let (st, it) := Store.alloc st (Object.intern itobj)
  let w ← Ref.show fmt st it w
  pure (st, m, lead, it, w)

/-- The statements of `main` on the array `pays`, and its last outputs. -/
def mainPayable (fmt : F64 → String) (st : Store) (e1 m it : Addr) (w : World) :
    Option (List Addr × World) := do
  -- Payable* pays[3];
  let pays : List Addr := [e1, m, it]
  let w := w.write "\nPayable objects:\n"
  let w ← pays.foldlM
    (fun w a => do pure (w.write (" - Pay: " ++ fmt (← Ref.getPay st a) ++ "\n"))) w
  let w := w.write ("\nCurrent Person population (static member): " ++
    toString w.population ++ "\n")
  let w := w.write "\n----- OOP Concepts Demo End -----\n"
  pure (pays, w)

/-- The body of `main` up to `return 0`: its four groups of statements in order. -/
def main (fmt : F64 → String) : Option Frame := do
  let (st, p1, s1, s2, s3, w) ← mainPersonSalary fmt World.initial
  let (st, e1, ptr, w) ← mainEmployee fmt st w
  let (st, m, lead, it, w) ← mainInheritance fmt st w
  let (pays, w) ← mainPayable fmt st e1 m it w
  pure { st, p1, s1, s2, s3, e1, ptr, m, lead, it, pays, w }

/-- The end of `main`: the local objects are destroyed in the reverse order
of their declaration (`it`, `lead`, `m`, `e1`, `p1`; `Salary` has no
destructor body). -/
def mainExit (f : Frame) : Option World := do
  let w := (← f.st[f.it]?).dtor f.w
  let w := (← f.st[f.lead]?).dtor w
  let w := (← f.st[f.m]?).dtor w
  let w := (← f.st[f.e1]?).dtor w
  let w := (← f.st[f.p1]?).dtor w
  pure w

/-- The whole run of the program. -/
def program (fmt : F64 → String) : Option World := main fmt >>= mainExit

end Driver


/-! ## Sequences of salary changes -/

/-- A call that changes the salary of an employee: `e.setSalary(s)` or
`promote(e, raise)`. -/
inductive SalaryCall where
  | set (s : Salary)
  | raise (amount : F64)
  deriving DecidableEq

namespace SalaryCall

/-- One call on the state of the employee. -/
def run (fmt : F64 → String) : SalaryCall → Employee × World → Employee × World
  | set s, (e, w) => (e.setSalary s, w)
  | raise amount, (e, w) => promote fmt e amount w

/-- A sequence of calls, first to last. -/
def runAll (fmt : F64 → String) (calls : List SalaryCall) (ew : Employee × World) :
    Employee × World :=
  calls.foldl (fun ew c => c.run fmt ew) ew

end SalaryCall

/-! ## Lemmas on `double` addition -/

namespace F64

/-- Zero has no binary digit, whatever the fuel. -/
theorem bitLengthAux_zero (fuel : Nat) : bitLengthAux fuel 0 = 0 := by
  cases fuel <;> simp [bitLengthAux]

/-- With fuel at least `n`, the count is large enough: `n < 2 ^ count`. -/
theorem lt_two_pow_bitLengthAux (fuel n : Nat) (h : n ≤ fuel) :
    n < 2 ^ bitLengthAux fuel n := by
  induction fuel generalizing n with
  | zero =>
    have h0 : n = 0 := by omega
    subst h0
    simp [bitLengthAux]
  | succ f ih =>
    by_cases hn : n = 0
    · subst hn
      simp [bitLengthAux]
    · have hstep : bitLengthAux (f + 1) n = bitLengthAux f (n / 2) + 1 := by
        simp [bitLengthAux, hn]
      have hrec := ih (n / 2) (by omega)
      rw [hstep, pow_succ]
      omega

/-- With fuel at least `n`, the count is not too large: `2 ^ (count - 1) ≤ n`. -/
theorem two_pow_le_of_bitLengthAux (fuel n : Nat) (h : n ≤ fuel) (hn : 0 < n) :
    2 ^ (bitLengthAux fuel n - 1) ≤ n := by
  induction fuel generalizing n with
  | zero => omega
  | succ f ih =>
    have hstep : bitLengthAux (f + 1) n = bitLengthAux f (n / 2) + 1 := by
      have : n ≠ 0 := by omega
      simp [bitLengthAux, this]
    rw [hstep, Nat.add_sub_cancel]
    by_cases h2 : n / 2 = 0
    · rw [h2, bitLengthAux_zero]
      simpa using hn
    · have hle : n / 2 ≤ f := by omega
      have hlow := ih (n / 2) hle (by omega)
      have hup := lt_two_pow_bitLengthAux f (n / 2) hle
      have hpos : bitLengthAux f (n / 2) ≠ 0 := by
        intro hz
        rw [hz] at hup
        simp at hup
        exact h2 hup
      obtain ⟨L, hL⟩ : ∃ L, bitLengthAux f (n / 2) = L + 1 := ⟨_, (Nat.succ_pred hpos).symm⟩
      rw [hL] at hlow ⊢
      rw [Nat.add_sub_cancel] at hlow
      rw [pow_succ]
      omega

/-- The fuel of `bitLength` is enough: `n < 2 ^ bitLength n`. -/
theorem lt_two_pow_bitLength (n : Nat) : n < 2 ^ bitLength n :=
  lt_two_pow_bitLengthAux n n (Nat.le_refl n)

/-- The top bit counted by `bitLength` is set: `2 ^ (bitLength n - 1) ≤ n`. -/
theorem two_pow_le_of_bitLength (n : Nat) (hn : 0 < n) : 2 ^ (bitLength n - 1) ≤ n :=
  two_pow_le_of_bitLengthAux n n (Nat.le_refl n) hn

/-- A positive number has at least one binary digit. -/
theorem bitLength_pos (n : Nat) (hn : 0 < n) : 0 < bitLength n := by
  have h := lt_two_pow_bitLength n
  by_contra hc
  have hz : bitLength n = 0 := by omega
  rw [hz] at h
  simp at h
  omega

/-- The two bounds determine the number of binary digits. -/
theorem bitLength_unique (n L : Nat) (hn : 0 < n) (h1 : 2 ^ (L - 1) ≤ n) (h2 : n < 2 ^ L) :
    bitLength n = L := by
  have b1 := two_pow_le_of_bitLength n hn
  have b2 := lt_two_pow_bitLength n
  rcases Nat.lt_trichotomy (bitLength n) L with hlt | heq | hgt
  · have : 2 ^ bitLength n ≤ 2 ^ (L - 1) := Nat.pow_le_pow_right (by decide) (by omega)
    omega
  · exact heq
  · have : 2 ^ L ≤ 2 ^ (bitLength n - 1) := Nat.pow_le_pow_right (by decide) (by omega)
    omega

/-- Shifting left by `j` adds `j` binary digits. -/
theorem bitLength_mul_two_pow (M j : Nat) (hM : 0 < M) :
    bitLength (M * 2 ^ j) = bitLength M + j := by
  have b1 := two_pow_le_of_bitLength M hM
  have b2 := lt_two_pow_bitLength M
  have hp := bitLength_pos M hM
  have hj : 0 < 2 ^ j := Nat.two_pow_pos j
  apply bitLength_unique
  · exact Nat.mul_pos hM hj
  · have : bitLength M + j - 1 = (bitLength M - 1) + j := by omega
    rw [this, pow_add]
    exact Nat.mul_le_mul_right _ b1
  · rw [pow_add]
    exact Nat.mul_lt_mul_of_pos_right b2 hj


/-- The rounded significand depends on the value only: `(M * 2^j) * 2^e` and
`M * 2^(e + j)` give the same one. -/
theorem roundedSignificand_scale (M j : Nat) (e t : Int) :
    roundedSignificand (M * 2 ^ j) e t = roundedSignificand M (e + j) t := by
  unfold roundedSignificand
  rcases le_or_lt t e with h1 | h1
  · -- nothing is dropped on either side
    obtain ⟨u, hu⟩ : ∃ u : Nat, e - t = u := ⟨(e - t).toNat, by omega⟩
    have a1 : (t - e).toNat = 0 := by omega
    have a2 : (e - t).toNat = u := by omega
    have a3 : (t - (e + j)).toNat = 0 := by omega
    have a4 : (e + j - t).toNat = j + u := by omega
    simp only [a1, a2, a3, a4, pow_zero, Nat.mod_one, Nat.div_one, Nat.mul_zero]
    have hq : M * 2 ^ j * 2 ^ u = M * 2 ^ (j + u) := by rw [pow_add, Nat.mul_assoc]
    rw [hq]
  · rcases le_or_lt t (e + j) with h2 | h2
    · -- the bits dropped on the left are zeros
      obtain ⟨k, hk⟩ : ∃ k : Nat, t - e = k := ⟨(t - e).toNat, by omega⟩
      obtain ⟨u, hu⟩ : ∃ u : Nat, e + j - t = u := ⟨(e + j - t).toNat, by omega⟩
      have hj : j = u + k := by omega
      have hkpos : 0 < k := by omega
      have a1 : (t - e).toNat = k := by omega
      have a2 : (e - t).toNat = 0 := by omega
      have a3 : (t - (e + j)).toNat = 0 := by omega
      have a4 : (e + j - t).toNat = u := by omega
      simp only [a1, a2, a3, a4, pow_zero, Nat.mod_one, Nat.div_one, Nat.mul_zero, Nat.mul_one]
      have hpk : 0 < 2 ^ k := Nat.two_pow_pos k
      have hr : M * 2 ^ j % 2 ^ k = 0 := by
        rw [hj, pow_add, ← Nat.mul_assoc]
        exact Nat.mul_mod_left _ _
      have hq : M * 2 ^ j / 2 ^ k = M * 2 ^ u := by
        rw [hj, pow_add, ← Nat.mul_assoc]
        exact Nat.mul_div_cancel _ hpk
      rw [hr, hq]
      have c1 : ¬ (2 ^ k < 2 * 0 ∨ (2 ^ k = 2 * 0 ∧ M * 2 ^ u % 2 = 1)) := by omega
      have c2 : ¬ ((1 : Nat) < 2 * 0 ∨ ((1 : Nat) = 2 * 0 ∧ M * 2 ^ u % 2 = 1)) := by omega
      rw [if_neg c1, if_neg c2]
    · -- the same bits are dropped on both sides
      obtain ⟨k, hk⟩ : ∃ k : Nat, t - (e + j) = k := ⟨(t - (e + j)).toNat, by omega⟩
      have a1 : (t - e).toNat = k + j := by omega
      have a2 : (e - t).toNat = 0 := by omega
      have a3 : (t - (e + j)).toNat = k := by omega
      have a4 : (e + j - t).toNat = 0 := by omega
      simp only [a1, a2, a3, a4, pow_zero, Nat.mul_one]
      have hpj : 0 < 2 ^ j := Nat.two_pow_pos j
      have hq : M * 2 ^ j / 2 ^ (k + j) = M / 2 ^ k := by
        rw [pow_add]
        exact Nat.mul_div_mul_right _ _ hpj
      have hr : M * 2 ^ j % 2 ^ (k + j) = M % 2 ^ k * 2 ^ j := by
        rw [pow_add]
        exact Nat.mul_mod_mul_right _ _ _
      rw [hq, hr, pow_add]
      have c1 : (2 ^ k * 2 ^ j < 2 * (M % 2 ^ k * 2 ^ j)) ↔ (2 ^ k < 2 * (M % 2 ^ k)) := by
        rw [← Nat.mul_assoc]
        exact Nat.mul_lt_mul_right hpj
      have c2 : (2 ^ k * 2 ^ j = 2 * (M % 2 ^ k * 2 ^ j)) ↔ (2 ^ k = 2 * (M % 2 ^ k)) := by
        rw [← Nat.mul_assoc]
        exact Nat.mul_left_inj (Nat.pos_iff_ne_zero.mp hpj)
      simp only [c1, c2]

/-- Rounding depends on the value only, not on how it is split into significand
and exponent. -/
theorem roundNearestEven_scale (s : Bool) (M j : Nat) (e : Int) (hM : 0 < M) :
    roundNearestEven s (M * 2 ^ j) e = roundNearestEven s M (e + j) := by
  unfold roundNearestEven
  have ht : e + ((bitLength (M * 2 ^ j) : Nat) : Int) - 53 =
      e + (j : Int) + ((bitLength M : Nat) : Int) - 53 := by
    rw [bitLength_mul_two_pow M j hM]
    push_cast
    ring
  simp only [ht, roundedSignificand_scale]


/-- Addition of `double`s is commutative. -/
theorem add_comm (a b : F64) : a + b = b + a := by
  show add a b = add b a
  cases a with
  | nan => cases b <;> rfl
  | inf s1 =>
    cases b with
    | nan => rfl
    | inf s2 => cases s1 <;> cases s2 <;> rfl
    | finite s2 m2 e2 => rfl
  | finite s1 m1 e1 =>
    cases b with
    | nan => rfl
    | inf s2 => rfl
    | finite s2 m2 e2 =>
      simp only [add]
      rw [min_comm e2 e1, Int.add_comm (signedScaled s2 m2 _), Bool.and_comm s2 s1]

/-- A significand that holds `|x| * 2^a`, with the sign of `x`, scaled by `2^K`,
is the integer `x * 2^(a + K)`. -/
theorem signedScaled_of_natAbs (x : Int) (m a K : Nat) (hm : m = x.natAbs * 2 ^ a) :
    signedScaled (decide (x < 0)) m K = x * 2 ^ (a + K) := by
  unfold signedScaled
  subst hm
  by_cases hx : x < 0
  · simp only [hx, decide_True, if_true]
    push_cast
    rw [abs_of_neg hx, pow_add]
    ring
  · simp only [hx, decide_False]
    push_cast
    rw [abs_of_nonneg (by omega), pow_add]
    simp [mul_assoc]

/-- A positive number below `2^53` has at most 53 binary digits. -/
theorem bitLength_le_of_lt (M : Nat) (hM : 0 < M) (h : M < 2 ^ 53) : bitLength M ≤ 53 := by
  have b1 := two_pow_le_of_bitLength M hM
  by_contra hc
  have : 2 ^ 53 ≤ 2 ^ (bitLength M - 1) := Nat.pow_le_pow_right (by decide) (by omega)
  omega

/-- An integer below `2^53` in magnitude is converted exactly, at a
non-positive exponent. -/
theorem ofInt_exact (x : Int) (hx : x.natAbs < 2 ^ 53) :
    ∃ (m : Nat) (e : Int), ofInt x = finite (decide (x < 0)) m e ∧ e ≤ 0 ∧
      m = x.natAbs * 2 ^ (-e).toNat := by
  by_cases h0 : x = 0
  · subst h0
    exact ⟨0, -1074, by decide, by decide, by rw [Int.natAbs_zero, Nat.zero_mul]⟩
  · have hM : 0 < x.natAbs := Int.natAbs_pos.mpr h0
    have hp := bitLength_pos _ hM
    have hle := bitLength_le_of_lt _ hM hx
    have hup := lt_two_pow_bitLength x.natAbs
    obtain ⟨u, hu⟩ : ∃ u : Nat, bitLength x.natAbs + u = 53 := ⟨53 - bitLength x.natAbs, by omega⟩
    refine ⟨x.natAbs * 2 ^ u, -(u : Int), ?_, by omega, ?_⟩
    · have ht : max ((0 : Int) + ((bitLength x.natAbs : Nat) : Int) - 53) (-1074) = -(u : Int) := by
        omega
      have a1 : (-(u : Int) - 0).toNat = 0 := by omega
      have a2 : ((0 : Int) - -(u : Int)).toNat = u := by omega
      have hq : roundedSignificand x.natAbs 0 (-(u : Int)) = x.natAbs * 2 ^ u := by
        unfold roundedSignificand
        simp only [a1, a2, pow_zero, Nat.mod_one, Nat.div_one]
        have c : ¬ ((1 : Nat) < 2 * 0 ∨ ((1 : Nat) = 2 * 0 ∧ x.natAbs * 2 ^ u % 2 = 1)) := by omega
        rw [if_neg c]
      have hlt : x.natAbs * 2 ^ u < 2 ^ 53 := by
        have : x.natAbs * 2 ^ u < 2 ^ bitLength x.natAbs * 2 ^ u :=
          Nat.mul_lt_mul_of_pos_right hup (Nat.two_pow_pos u)
        rw [← pow_add, hu] at this
        exact this
      have hne : x.natAbs * 2 ^ u ≠ 2 ^ 53 := Nat.ne_of_lt hlt
      have he : ¬ ((971 : Int) < -(u : Int)) := by omega
      simp only [ofInt, if_neg h0, roundNearestEven, ht, hq, if_neg hne, if_neg he]
    · have : (- -(u : Int)).toNat = u := by omega
      rw [this]


/-- The sum of two `double`s that hold the integers `x` and `y` at non-positive
exponents is the conversion of `x + y`. -/
theorem add_of_exact (x y : Int) (m1 m2 : Nat) (e1 e2 : Int) (h1 : e1 ≤ 0) (h2 : e2 ≤ 0)
    (hm1 : m1 = x.natAbs * 2 ^ (-e1).toNat) (hm2 : m2 = y.natAbs * 2 ^ (-e2).toNat) :
    finite (decide (x < 0)) m1 e1 + finite (decide (y < 0)) m2 e2 = ofInt (x + y) := by
  show add (finite (decide (x < 0)) m1 e1) (finite (decide (y < 0)) m2 e2) = ofInt (x + y)
  simp only [add]
  obtain ⟨E, hE⟩ : ∃ E : Nat, -(min e1 e2) = E := ⟨(-(min e1 e2)).toNat, by omega⟩
  have k1 : (-e1).toNat + (e1 - min e1 e2).toNat = E := by omega
  have k2 : (-e2).toNat + (e2 - min e1 e2).toNat = E := by omega
  have v1 := signedScaled_of_natAbs x m1 (-e1).toNat (e1 - min e1 e2).toNat hm1
  have v2 := signedScaled_of_natAbs y m2 (-e2).toNat (e2 - min e1 e2).toNat hm2
  rw [k1] at v1
  rw [k2] at v2
  rw [v1, v2, ← add_mul]
  have hpow : (0 : Int) < 2 ^ E := by positivity
  by_cases hxy : x + y = 0
  · have hs : (decide (x < 0) && decide (y < 0)) = false := by
      by_cases hx : x < 0
      · have hy : ¬ y < 0 := by omega
        simp [hx, hy]
      · simp [hx]
    simp only [hxy, zero_mul, if_true, hs, ofInt]
  · have hv : (x + y) * 2 ^ E ≠ 0 := mul_ne_zero hxy (ne_of_gt hpow)
    have hneg : ((x + y) * 2 ^ E < 0) ↔ (x + y < 0) := by
      constructor
      · intro h
        by_contra hc
        have : 0 ≤ (x + y) * 2 ^ E := mul_nonneg (by omega) (le_of_lt hpow)
        omega
      · intro h
        exact mul_neg_of_neg_of_pos h hpow
    have habs : ((x + y) * 2 ^ E).natAbs = (x + y).natAbs * 2 ^ E := by
      rw [Int.natAbs_mul, Int.natAbs_pow]
      rfl
    have hexp : min e1 e2 + (E : Int) = 0 := by omega
    rw [if_neg hv, habs, roundNearestEven_scale _ _ _ _ (Int.natAbs_pos.mpr hxy), hexp]
    simp only [ofInt, if_neg hxy, hneg]

/-- The sum of the conversions of two integers below `2^53` in magnitude is the
conversion of their sum. -/
theorem ofInt_add_ofInt (x y : Int) (hx : x.natAbs < 2 ^ 53) (hy : y.natAbs < 2 ^ 53) :
    ofInt x + ofInt y = ofInt (x + y) := by
  obtain ⟨m1, e1, r1, h1, hm1⟩ := ofInt_exact x hx
  obtain ⟨m2, e2, r2, h2, hm2⟩ := ofInt_exact y hy
  rw [r1, r2]
  exact add_of_exact x y m1 m2 e1 e2 h1 h2 hm1 hm2

/-- Addition is associative on integers that, with their partial sums, are
below `2^53` in magnitude. -/
theorem add_assoc_of_exact (x y z : Int) (hx : x.natAbs < 2 ^ 53) (hy : y.natAbs < 2 ^ 53)
    (hz : z.natAbs < 2 ^ 53) (hxy : (x + y).natAbs < 2 ^ 53) (hyz : (y + z).natAbs < 2 ^ 53) :
    (ofInt x + ofInt y) + ofInt z = ofInt x + (ofInt y + ofInt z) := by
  rw [ofInt_add_ofInt x y hx hy, ofInt_add_ofInt y z hy hz, ofInt_add_ofInt (x + y) z hxy hz,
    ofInt_add_ofInt x (y + z) hx hyz, Int.add_assoc]

end F64

/-! ## Lemmas on the representation -/

/-- A value of `int` is left as it is. -/
theorem wrapInt_of_inRange (x : Int) (hlo : -2 ^ 31 ≤ x) (hhi : x < 2 ^ 31) : wrapInt x = x := by
  unfold wrapInt
  omega

/-- The `Person` subobject just written is the one read. -/
theorem Object.toPerson_setPerson (o : Object) (p : Person) : (o.setPerson p).toPerson = p := by
  cases o <;> rfl

/-- The `Employee` subobject just written is the one read. -/
theorem Object.toEmployee_setEmployee (o : Object) (e0 e : Employee)
    (h : o.toEmployee = some e0) : (o.setEmployee e).toEmployee = some e := by
  cases o <;> simp_all [Object.toEmployee, Object.setEmployee]

/-- Writing the `Person` subobject leaves the other members of the `Employee`
subobject. -/
theorem Object.toEmployee_setPerson (o : Object) (p : Person) :
    (o.setPerson p).toEmployee = o.toEmployee.map fun e => { e with toPerson := p } := by
  cases o <;> rfl

/-- The object just written at an address in use is the one read there. -/
theorem Store.getElem?_set_same (st : Store) (a : Addr) (o x : Object) (h : st[a]? = some o) :
    (st.set a x)[a]? = some x := by
  have hlt : a < st.length := by
    rcases List.getElem?_eq_some.mp h with ⟨hlt, _⟩
    exact hlt
  simp [List.getElem?_set_self hlt]

/-- Writing different texts from the same state gives different states. -/
theorem World.write_ne (w : World) (s t : String) (h : s.data ≠ t.data) :
    w.write s ≠ w.write t := by
  intro heq
  have h1 : (w.write s).cout.data = (w.write t).cout.data := by rw [heq]
  simp only [World.write, String.data_append] at h1
  exact h (List.append_cancel_left h1)

example (n : String) (a : Int) : ("[Employee::show] " ++ n).data ≠ ("[Person::show] Name: " ++ n ++ toString a).data := by
  simp [String.data_append]

/-- The call `promote(e, raise)` through a reference to an object with an
`Employee` subobject: the store and the world it leaves. -/
theorem Ref.promoteAt_eq (fmt : F64 → String) (st : Store) (a : Addr) (o : Object)
    (e : Employee) (r : F64) (w : World) (hst : st[a]? = some o)
    (ho : o.toEmployee = some e) :
    Ref.promoteAt fmt st a r w =
      some (st.set a (o.setEmployee (promote fmt e r w).1), (promote fmt e r w).2) := by
  simp [Ref.promoteAt, hst, ho]

/-- The call `p.setAge(a)` through a reference to an object: the store it
leaves and the reference it returns. -/
theorem Ref.setAge_eq (st : Store) (this : Addr) (o : Object) (a : Int)
    (h : st[this]? = some o) :
    Ref.setAge st this a = some (st.set this (o.setPerson (o.toPerson.setAge a)), this) := by
  simp [Ref.setAge, h]

/-! ## Claims -/

/-- C4: `Salary(x).get()` is `x`, the default-constructed `Salary` has amount
zero, and `(Salary(x) + Salary(y)).get()` is the `double` sum `x + y`; the sum is
a new value, the operands being read only. -/
theorem Salary.get_ctor_add (x y : F64) :
    (Salary.ctor x).get = x ∧
    Salary.ctorDefault.get = F64.finite false 0 (-1074) ∧
    Salary.ctorDefault.get = F64.ofInt 0 ∧
    (Salary.ctor x + Salary.ctor y).get = x + y ∧
    (∀ a b : Salary, (a + b).get = a.get + b.get) := by
  refine ⟨rfl, by decide, rfl, rfl, fun _ _ => rfl⟩

/-- C9: move-constructing a `Person` from `src` gives a `Person` with the name
and the age of `src` and leaves the age of `src` at `0`. -/
theorem Person.ctorMove_spec (src : Person) (w : World) :
    (Person.ctorMove src w).1.getName = src.getName ∧
    (Person.ctorMove src w).1.getAge = src.getAge ∧
    (Person.ctorMove src w).2.1.getAge = 0 := by
  exact ⟨rfl, rfl, rfl⟩

/-- C2: after `promote(e, r)` on an employee whose salary amount is `s`,
`e.getPay()` returns the `double` sum `s + r`, for the state of the employee
and for the call through a reference to an object of any class derived from
`Employee`; an employee constructed with salary 7000 and promoted by 500 has
pay 7500. -/
theorem promote_getPay (fmt : F64 → String) (r : F64) (w : World) :
    (∀ e : Employee, (promote fmt e r w).1.getPay = e.getPay + r) ∧
    (∀ (st : Store) (a : Addr) (o : Object) (e : Employee),
      st[a]? = some o → o.toEmployee = some e →
      ((Ref.promoteAt fmt st a r w).bind fun after => Ref.getPay after.1 a)
        = some (e.getPay + r)) ∧
    (∀ (nm : String) (a id : Int) (w0 : World),
      (promote fmt (Employee.ctorParam nm a id (F64.ofInt 7000) w0).1 (F64.ofInt 500) w).1.getPay
        = F64.ofInt 7500) := by
  refine ⟨fun _ => rfl, ?_, ?_⟩
  · intro st a o e hst ho
    rw [Ref.promoteAt_eq fmt st a o e r w hst ho]
    simp only [Option.some_bind, Ref.getPay, Store.getElem?_set_same st a o _ hst,
      Object.vgetPay, Object.toEmployee_setEmployee o e _ ho, Option.map_some']
    rfl
  · intro nm a id w0
    show F64.ofInt 7000 + F64.ofInt 500 = F64.ofInt 7500
    decide

/-- Witness of C2: Bob, hired at 7000 and promoted by 500 through a reference. -/
theorem promote_getPay_witness :
    ((Ref.promoteAt (fun _ => "") [Object.employee (Employee.ctorParam "Bob" 28 1001
        (F64.ofInt 7000) World.initial).1] 0 (F64.ofInt 500) World.initial).bind
      fun after => Ref.getPay after.1 0) = some (F64.ofInt 7000 + F64.ofInt 500) :=
  (promote_getPay (fun _ => "") (F64.ofInt 500) World.initial).2.1
    [Object.employee (Employee.ctorParam "Bob" 28 1001 (F64.ofInt 7000) World.initial).1] 0
    (Object.employee (Employee.ctorParam "Bob" 28 1001 (F64.ofInt 7000) World.initial).1)
    (Employee.ctorParam "Bob" 28 1001 (F64.ofInt 7000) World.initial).1 rfl rfl

set_option maxRecDepth 100000 in
/-- C3, the claim as stated, fails: with the amounts `2^53`, `1` and `1` (all
three held exactly by a `double`), `(a + b) + c` has amount `2^53`, since
`2^53 + 1` rounds back to `2^53`, while `a + (b + c)` has amount `2^53 + 2`. -/
theorem Salary.add_not_assoc :
    F64.valid (F64.ofInt (2 ^ 53)) = true ∧ F64.valid (F64.ofInt 1) = true ∧
    ((Salary.ctor (F64.ofInt (2 ^ 53)) + Salary.ctor (F64.ofInt 1)) +
        Salary.ctor (F64.ofInt 1)).get = F64.ofInt (2 ^ 53) ∧
    (Salary.ctor (F64.ofInt (2 ^ 53)) + (Salary.ctor (F64.ofInt 1) +
        Salary.ctor (F64.ofInt 1))).get = F64.ofInt (2 ^ 53 + 2) ∧
    ((Salary.ctor (F64.ofInt (2 ^ 53)) + Salary.ctor (F64.ofInt 1)) +
        Salary.ctor (F64.ofInt 1)).get ≠
      (Salary.ctor (F64.ofInt (2 ^ 53)) + (Salary.ctor (F64.ofInt 1) +
        Salary.ctor (F64.ofInt 1))).get := by
  decide

/-- C3, amended: `Salary::operator+` is commutative for all `Salary` values;
it is associative on amounts that are integers below `2^53` in magnitude
whose partial sums `x + y` and `y + z` are below `2^53` in magnitude too (no
sum is rounded); and `Salary(5000) + Salary(1500)` has amount 6500. -/
theorem Salary.add_comm_assoc_exact :
    (∀ a b : Salary, (a + b).get = (b + a).get) ∧
    (∀ x y z : Int, x.natAbs < 2 ^ 53 → y.natAbs < 2 ^ 53 → z.natAbs < 2 ^ 53 →
      (x + y).natAbs < 2 ^ 53 → (y + z).natAbs < 2 ^ 53 →
      ((Salary.ctor (F64.ofInt x) + Salary.ctor (F64.ofInt y)) +
          Salary.ctor (F64.ofInt z)).get =
        (Salary.ctor (F64.ofInt x) + (Salary.ctor (F64.ofInt y) +
          Salary.ctor (F64.ofInt z))).get) ∧
    (Salary.ctor (F64.ofInt 5000) + Salary.ctor (F64.ofInt 1500)).get = F64.ofInt 6500 := by
  refine ⟨fun a b => F64.add_comm a.amount b.amount, ?_, by decide⟩
  intro x y z hx hy hz hxy hyz
  exact F64.add_assoc_of_exact x y z hx hy hz hxy hyz

/-- Witness of C3 amended: the amounts 5000, 1500 and 500. -/
theorem Salary.add_comm_assoc_exact_witness :
    ((Salary.ctor (F64.ofInt 5000) + Salary.ctor (F64.ofInt 1500)) +
        Salary.ctor (F64.ofInt 500)).get =
      (Salary.ctor (F64.ofInt 5000) + (Salary.ctor (F64.ofInt 1500) +
        Salary.ctor (F64.ofInt 500))).get :=
  Salary.add_comm_assoc_exact.2.1 5000 1500 500 (by decide) (by decide) (by decide)
    (by decide) (by decide)

/-- C7: for a `Person` (or an object of a derived class) at address `this` and
all integers `a` and `b`, negative ones included, `p.setAge(a)` returns the
reference `this` itself, the chained call `p.setAge(a).setAge(b)` runs on that
same object and returns `this` again, and afterwards `p.getAge()` returns `b`;
chaining 31 then 32 leaves 32. -/
theorem setAge_chain (st : Store) (this : Addr) (o : Object) (a b : Int)
    (h : st[this]? = some o) :
    (Ref.setAge st this a).map Prod.snd = some this ∧
    ((Ref.setAge st this a).bind fun r => (Ref.setAge r.1 r.2 b).map Prod.snd) = some this ∧
    ((Ref.setAge st this a).bind fun r =>
      (Ref.setAge r.1 r.2 b).bind fun r2 => Ref.getAge r2.1 this) = some b := by
  have h1 := Ref.setAge_eq st this o a h
  have h2 := Store.getElem?_set_same st this o (o.setPerson (o.toPerson.setAge a)) h
  have h3 := Ref.setAge_eq _ this _ b h2
  have h4 := Store.getElem?_set_same _ this _
    ((o.setPerson (o.toPerson.setAge a)).setPerson
      (((o.setPerson (o.toPerson.setAge a)).toPerson).setAge b)) h2
  refine ⟨?_, ?_, ?_⟩
  · rw [h1]
    rfl
  · rw [h1, Option.some_bind, h3]
    rfl
  · rw [h1, Option.some_bind, h3, Option.some_bind]
    unfold Ref.getAge
    rw [h4]
    simp only [Option.map_some', Object.toPerson_setPerson]
    rfl

/-- Witness of C7: Alice, aged 30, with `setAge(31).setAge(32)`. -/
theorem setAge_chain_witness :
    ((Ref.setAge [Object.person (Person.mk 30 "Alice")] 0 31).bind fun r =>
      (Ref.setAge r.1 r.2 32).bind fun r2 => Ref.getAge r2.1 0) = some 32 :=
  (setAge_chain [Object.person (Person.mk 30 "Alice")] 0 (Object.person (Person.mk 30 "Alice"))
    31 32 rfl).2.2

/-- C8: after constructing an `Employee` (default, parameterized or copy) and
any sequence of `setSalary` and `promote` calls, `e.getPay()` equals
`e.getSalary().get()`; after `e.setSalary(s)`, `e.getPay()` returns `s.get()`;
a copy-constructed `Employee` has the pay of its source. -/
theorem Employee.getPay_eq_getSalary (fmt : F64 → String) (calls : List SalaryCall)
    (w : World) :
    ((SalaryCall.runAll fmt calls (Employee.ctorDefault w)).1.getPay =
      (SalaryCall.runAll fmt calls (Employee.ctorDefault w)).1.getSalary.get) ∧
    (∀ (nm : String) (a id : Int) (sal : F64),
      (SalaryCall.runAll fmt calls (Employee.ctorParam nm a id sal w)).1.getPay =
        (SalaryCall.runAll fmt calls (Employee.ctorParam nm a id sal w)).1.getSalary.get) ∧
    (∀ other : Employee,
      (SalaryCall.runAll fmt calls (Employee.ctorCopy other w)).1.getPay =
        (SalaryCall.runAll fmt calls (Employee.ctorCopy other w)).1.getSalary.get) ∧
    (∀ (e : Employee) (s : Salary), (e.setSalary s).getPay = s.get) ∧
    (∀ other : Employee, (Employee.ctorCopy other w).1.getPay = other.getPay) :=
  ⟨rfl, fun _ _ _ _ => rfl, fun _ => rfl, fun _ _ => rfl, fun _ => rfl⟩

/-- C1, the claim as stated, fails at the ends of `int`: constructing a
`Person` when `Person::population` is `2147483647` leaves `-2147483648`, not
`2147483648`, and destroying one when it is `-2147483648` leaves `2147483647`,
not `-2147483649`; the counter is unchecked. -/
theorem population_overflow :
    (Person.ctorParam "Alice" 30 (World.mk 2147483647 "")).2.population = -2147483648 ∧
    (Person.ctorParam "Alice" 30 (World.mk 2147483647 "")).2.population ≠ 2147483647 + 1 ∧
    ((Object.person (Person.mk 30 "Alice")).dtor (World.mk (-2147483648) "")).population
      = 2147483647 ∧
    ((Object.person (Person.mk 30 "Alice")).dtor (World.mk (-2147483648) "")).population
      ≠ -2147483648 - 1 := by
  decide

set_option maxRecDepth 10000 in
/-- C1, amended: from every value `n` of `Person::population` other than the
greatest `int`, every construction path (`Person` default, parameterized,
copy, move; `Employee` default, parameterized, copy; `Manager` default,
parameterized, copy; `Lead` and its copy; `Intern` and its copy) leaves the
population at `n + 1`, exactly one increment, the `Consultant` base adding
none; from every value `n` other than the least `int`, destroying an object of
any of these classes leaves it at `n - 1`. The driver, starting from 0, has
population 5 when it prints it, prints `5`, and is back at 0 once its five
objects are destroyed. -/
theorem population_one_per_object (fmt : F64 → String) (w : World) :
    ((-2 ^ 31 ≤ w.population ∧ w.population < 2 ^ 31 - 1) →
      (Person.ctorDefault w).2.population = w.population + 1 ∧
      (∀ nm a, (Person.ctorParam nm a w).2.population = w.population + 1) ∧
      (∀ other, (Person.ctorCopy other w).2.population = w.population + 1) ∧
      (∀ other, (Person.ctorMove other w).2.2.population = w.population + 1) ∧
      (Employee.ctorDefault w).2.population = w.population + 1 ∧
      (∀ nm a id sal, (Employee.ctorParam nm a id sal w).2.population = w.population + 1) ∧
      (∀ other, (Employee.ctorCopy other w).2.population = w.population + 1) ∧
      (Manager.ctorDefault w).2.population = w.population + 1 ∧
      (∀ nm a id sal team,
        (Manager.ctorParam nm a id sal team w).2.population = w.population + 1) ∧
      (∀ other, (Manager.ctorCopy other w).2.population = w.population + 1) ∧
      (∀ nm a id sal team firm,
        (Lead.ctor nm a id sal team firm w).2.population = w.population + 1) ∧
      (∀ other, (Lead.ctorCopy other w).2.population = w.population + 1) ∧
      (∀ nm a id sal, (Intern.ctor nm a id sal w).2.population = w.population + 1) ∧
      (∀ other, (Intern.ctorCopy other w).2.population = w.population + 1)) ∧
    (∀ firm, (Consultant.ctor firm w).2.population = w.population) ∧
    (∀ other, (Consultant.ctorCopy other w).2.population = w.population) ∧
    ((-2 ^ 31 < w.population ∧ w.population < 2 ^ 31) →
      ∀ o : Object, (o.dtor w).population = w.population - 1) ∧
    (Driver.main fmt).map (fun f => f.w.population) = some 5 ∧
    (∃ pre, (Driver.main fmt).map (fun f => f.w.cout) =
      some (pre ++ "\nCurrent Person population (static member): 5\n" ++
        "\n----- OOP Concepts Demo End -----\n")) ∧
    (Driver.program fmt).map (fun w1 => w1.population) = some 0 := by
  refine ⟨?_, fun _ => rfl, fun _ => rfl, ?_, rfl, ⟨_, rfl⟩, rfl⟩
  · rintro ⟨hlo, hhi⟩
    have hw : wrapInt (w.population + 1) = w.population + 1 :=
      wrapInt_of_inRange _ (by omega) (by omega)
    refine ⟨hw, fun _ _ => hw, fun _ => hw, fun _ => hw, hw, fun _ _ _ _ => hw, fun _ => hw,
      hw, fun _ _ _ _ _ => hw, fun _ => hw, fun _ _ _ _ _ _ => hw, fun _ => hw,
      fun _ _ _ _ => hw, fun _ => hw⟩
  · rintro ⟨hlo, hhi⟩ o
    have hw : wrapInt (w.population - 1) = w.population - 1 :=
      wrapInt_of_inRange _ (by omega) (by omega)
    cases o <;> exact hw

/-- Witness of C1 amended: one construction from population 0 and one
destruction from population 1. -/
theorem population_one_per_object_witness :
    (Lead.ctor "Dave" 40 3001 (F64.ofInt 20000) 10 "TopConsult" World.initial).2.population
      = World.initial.population + 1 ∧
    ((Object.person (Person.mk 30 "Alice")).dtor (World.mk 1 "")).population = 1 - 1 :=
  ⟨((population_one_per_object (fun _ => "") World.initial).1
      ⟨by decide, by decide⟩).2.2.2.2.2.2.2.2.2.2.1 "Dave" 40 3001 (F64.ofInt 20000) 10
      "TopConsult",
    (population_one_per_object (fun _ => "") (World.mk 1 "")).2.2.2.1 ⟨by decide, by decide⟩
      (Object.person (Person.mk 30 "Alice"))⟩

/-- C10: `promote(e, r)` replaces the salary of `e` and nothing else of it
(name, age, `employeeId` stay), leaves `Person::population` as it was and
leaves every other object alone; `setAge` replaces the age of the `Person` it
is called on and nothing else (its name stays, and it has no access to
`Person::population`), and leaves every other object alone. -/
theorem promote_setAge_frame (fmt : F64 → String) (st : Store) (this : Addr) (o : Object)
    (r : F64) (a : Int) (w : World) (h : st[this]? = some o) :
    (∀ e : Employee,
      (promote fmt e r w).1 = { e with salary := e.salary + Salary.ctor r } ∧
      (promote fmt e r w).1.name = e.name ∧ (promote fmt e r w).1.age = e.age ∧
      (promote fmt e r w).1.employeeId = e.employeeId ∧
      (promote fmt e r w).2.population = w.population) ∧
    (∀ e : Employee, o.toEmployee = some e →
      ((Ref.promoteAt fmt st this r w).bind fun after => Ref.getName after.1 this)
        = some e.name ∧
      ((Ref.promoteAt fmt st this r w).bind fun after => Ref.getAge after.1 this)
        = some e.age ∧
      ((Ref.promoteAt fmt st this r w).bind fun after =>
        (after.1[this]?.bind Object.toEmployee).map fun e1 => e1.employeeId)
        = some e.employeeId ∧
      (Ref.promoteAt fmt st this r w).map (fun after => after.2.population)
        = some w.population ∧
      ∀ b : Addr, b ≠ this →
        (Ref.promoteAt fmt st this r w).map (fun after => after.1[b]?) = some st[b]?) ∧
    (∀ p : Person, p.setAge a = { p with age := a } ∧ (p.setAge a).name = p.name) ∧
    ((Ref.setAge st this a).bind fun after => Ref.getName after.1 this)
      = some o.toPerson.name ∧
    (Ref.setAge st this a).map (fun after => after.1[this]?)
      = some (some (o.setPerson { o.toPerson with age := a })) ∧
    (∀ b : Addr, b ≠ this →
      (Ref.setAge st this a).map (fun after => after.1[b]?) = some st[b]?) := by
  have hs := Ref.setAge_eq st this o a h
  refine ⟨fun e => ⟨rfl, rfl, rfl, rfl, rfl⟩, ?_, fun p => ⟨rfl, rfl⟩, ?_, ?_, ?_⟩
  · intro e he
    have hp := Ref.promoteAt_eq fmt st this o e r w h he
    have hg := Store.getElem?_set_same st this o (o.setEmployee (promote fmt e r w).1) h
    refine ⟨?_, ?_, ?_, ?_, ?_⟩
    · rw [hp]
      simp only [Option.some_bind, Ref.getName, hg, Option.map_some']
      cases o <;> simp_all [Object.toEmployee, Object.setEmployee, Object.toPerson, promote,
        Person.getName]
    · rw [hp]
      simp only [Option.some_bind, Ref.getAge, hg, Option.map_some']
      cases o <;> simp_all [Object.toEmployee, Object.setEmployee, Object.toPerson, promote,
        Person.getAge]
    · rw [hp]
      simp only [Option.some_bind, hg, Object.toEmployee_setEmployee o e _ he,
        Option.map_some']
      rfl
    · rw [hp]
      rfl
    · intro b hb
      rw [hp]
      simp only [Option.map_some']
      rw [List.getElem?_set_ne (Ne.symm hb)]
  · rw [hs]
    simp only [Option.some_bind, Ref.getName, Store.getElem?_set_same st this o _ h,
      Option.map_some', Object.toPerson_setPerson]
    rfl
  · rw [hs]
    simp only [Option.map_some', Store.getElem?_set_same st this o _ h]
    rfl
  · intro b hb
    rw [hs]
    simp only [Option.map_some']
    rw [List.getElem?_set_ne (Ne.symm hb)]

/-- Witness of C10: Bob set to age 29 in a store that also holds Alice. -/
theorem promote_setAge_frame_witness :
    ((Ref.setAge [Object.person (Person.mk 30 "Alice"),
        Object.employee (Employee.ctorParam "Bob" 28 1001 (F64.ofInt 7000) World.initial).1]
        1 29).bind fun after => Ref.getName after.1 1) = some "Bob" :=
  (promote_setAge_frame (fun _ => "")
    [Object.person (Person.mk 30 "Alice"),
      Object.employee (Employee.ctorParam "Bob" 28 1001 (F64.ofInt 7000) World.initial).1]
    1 (Object.employee (Employee.ctorParam "Bob" 28 1001 (F64.ofInt 7000) World.initial).1)
    (F64.ofInt 500) 29 World.initial rfl).2.2.2.1

/-- C5: with `Payable` pointers bound in order to an `Employee`, a `Manager`
and an `Intern`, `getPay` on element `i` returns the current salary amount of
the `i`-th object, also after a promotion of the first; in the driver the
array yields 7500, 15000, 1000 in that order. -/
theorem payable_array_getPay (fmt : F64 → String) (st : Store) (a0 a1 a2 : Addr)
    (e : Employee) (m : Manager) (it : Intern)
    (h0 : st[a0]? = some (Object.employee e)) (h1 : st[a1]? = some (Object.manager m))
    (h2 : st[a2]? = some (Object.intern it)) :
    [a0, a1, a2].map (Ref.getPay st) =
      [some e.salary.amount, some m.salary.amount, some it.salary.amount] ∧
    (∀ (r : F64) (w : World),
      (Ref.promoteAt fmt st a0 r w).map (fun after => [a0, a1, a2].map (Ref.getPay after.1)) =
        some [some (e.salary.amount + r), some m.salary.amount, some it.salary.amount]) ∧
    (Driver.main fmt).map (fun f => f.pays.map (Ref.getPay f.st)) =
      some [some (F64.ofInt 7500), some (F64.ofInt 15000), some (F64.ofInt 1000)] := by
  have h01 : a1 ≠ a0 := by
    intro hc
    rw [hc, h0] at h1
    cases h1
  have h02 : a2 ≠ a0 := by
    intro hc
    rw [hc, h0] at h2
    cases h2
  refine ⟨?_, ?_, ?_⟩
  · simp [Ref.getPay, h0, h1, h2, Object.vgetPay, Object.toEmployee, Employee.getPay,
      Salary.get]
  · intro r w
    rw [Ref.promoteAt_eq fmt st a0 (Object.employee e) e r w h0 rfl]
    have g0 := Store.getElem?_set_same st a0 (Object.employee e)
      ((Object.employee e).setEmployee (promote fmt e r w).1) h0
    have g1 : (st.set a0 ((Object.employee e).setEmployee (promote fmt e r w).1))[a1]?
        = some (Object.manager m) := by
      rw [List.getElem?_set_ne (Ne.symm h01)]
      exact h1
    have g2 : (st.set a0 ((Object.employee e).setEmployee (promote fmt e r w).1))[a2]?
        = some (Object.intern it) := by
      rw [List.getElem?_set_ne (Ne.symm h02)]
      exact h2
    simp only [Option.map_some', List.map, Ref.getPay, g0, g1, g2, Option.some_bind]
    rfl
  · rfl

/-- Witness of C5: an employee, a manager and an intern at addresses 0, 1, 2. -/
theorem payable_array_getPay_witness :
    [0, 1, 2].map (Ref.getPay
      [Object.employee (Employee.ctorParam "Bob" 28 1001 (F64.ofInt 7500) World.initial).1,
        Object.manager (Manager.ctorParam "Carol" 35 2001 (F64.ofInt 15000) 5 World.initial).1,
        Object.intern (Intern.ctor "Eve" 22 4001 (F64.ofInt 1000) World.initial).1]) =
      [some (F64.ofInt 7500), some (F64.ofInt 15000), some (F64.ofInt 1000)] :=
  (payable_array_getPay (fun _ => "")
    [Object.employee (Employee.ctorParam "Bob" 28 1001 (F64.ofInt 7500) World.initial).1,
      Object.manager (Manager.ctorParam "Carol" 35 2001 (F64.ofInt 15000) 5 World.initial).1,
      Object.intern (Intern.ctor "Eve" 22 4001 (F64.ofInt 1000) World.initial).1]
    0 1 2 _ _ _ rfl rfl rfl).1

/-- C6: for an object whose actual class is `Employee`, `Manager`, `Lead` or
`Intern`, the call `show()` through a `Person` pointer or reference runs the
`show` of that class, and what it writes is never what `Person::show` writes
for the same object. -/
theorem show_dispatch (fmt : F64 → String) (st : Store) (this : Addr) (w : World) :
    (∀ e : Employee, st[this]? = some (Object.employee e) →
      Ref.show fmt st this w = some (e.show fmt w) ∧ e.show fmt w ≠ e.toPerson.show w) ∧
    (∀ m : Manager, st[this]? = some (Object.manager m) →
      Ref.show fmt st this w = some (m.show w) ∧ m.show w ≠ m.toPerson.show w) ∧
    (∀ l : Lead, st[this]? = some (Object.lead l) →
      Ref.show fmt st this w = some (l.show w) ∧ l.show w ≠ l.toPerson.show w) ∧
    (∀ i : Intern, st[this]? = some (Object.intern i) →
      Ref.show fmt st this w = some (i.show w) ∧ i.show w ≠ i.toPerson.show w) := by
  refine ⟨?_, ?_, ?_, ?_⟩
  · intro e h
    refine ⟨by simp [Ref.show, h, Object.vshow], ?_⟩
    apply World.write_ne
    simp [Employee.showText, Person.showText, String.data_append]
  · intro m h
    refine ⟨by simp [Ref.show, h, Object.vshow], ?_⟩
    apply World.write_ne
    simp [Manager.showText, Person.showText, String.data_append]
  · intro l h
    refine ⟨by simp [Ref.show, h, Object.vshow], ?_⟩
    apply World.write_ne
    simp [Lead.showText, Person.showText, String.data_append]
  · intro i h
    refine ⟨by simp [Ref.show, h, Object.vshow], ?_⟩
    apply World.write_ne
    simp [Intern.showText, Person.showText, String.data_append]

/-- Witness of C6: a `Person` pointer bound to the manager Carol. -/
theorem show_dispatch_witness :
    Ref.show (fun _ => "")
        [Object.manager (Manager.ctorParam "Carol" 35 2001 (F64.ofInt 15000) 5
          World.initial).1] 0 World.initial
      = some (World.mk 0 "[Manager::show] Carol manages team of 5\n") :=
  ((show_dispatch (fun _ => "")
    [Object.manager (Manager.ctorParam "Carol" 35 2001 (F64.ofInt 15000) 5 World.initial).1]
    0 World.initial).2.1 _ rfl).1.trans (by decide)
